import Mathlib

/-!
Verification development for three OpenComplex source files:

  opencomplex/loss/loss_utils.py
  opencomplex/model/outer_product_mean.py
  opencomplex/model/structure_module_xyz.py

Tensors are embedded over exact rational arithmetic (ℚ): a float tensor of
shape [a, b, c] becomes a nested list `List (List (List ℚ))` (or an index
function over `Fin`/`ℕ` where that is closer to the access pattern of the
source).  Host-library transcendental kernels (torch.sqrt, exp, log, cube
root) are taken as explicit function parameters of the embedded definitions;
a theorem that needs one of their algebraic laws takes that law as a
hypothesis, and its witness discharges the law with the real functions.
-/

/- ===================== Common tensor scaffolding ===================== -/

/-- A 3-D coordinate (one atom position), embedded as a rational triple. -/
abbrev Vec3 := ℚ × ℚ × ℚ

/-- Numeric value of a boolean tensor entry: comparisons such as
`dmat_true < cutoff` produce 0/1 tensors that the source immediately
multiplies with float tensors. -/
def bool01 (p : Prop) [Decidable p] : ℚ := if p then 1 else 0

/-- Dot product of two rational vectors (a one-axis tensor contraction). -/
def dotQ (u v : List ℚ) : ℚ := (List.zipWith (fun x y => x * y) u v).sum

/- ===================== loss_utils.py : lddt ===================== -/

/-- Squared Euclidean distance between two embedded atom positions:
the summand `sum((x[..., None, :] - x[..., None, :, :]) ** 2, dim=-1)`
of the distance-matrix construction in `lddt`. -/
def sqDist (x y : Vec3) : ℚ :=
  (x.1 - y.1) ^ 2 + (x.2.1 - y.2.1) ^ 2 + (x.2.2 - y.2.2) ^ 2

/-- Entry (i, j) of the all-pairs distance matrix
`torch.sqrt(eps + sum((pos[..., None, :] - pos[..., None, :, :]) ** 2, -1))`
built by `lddt`.  `sqrtF` is the model of `torch.sqrt`. -/
def dmatEntry (sqrtF : ℚ → ℚ) (eps : ℚ) (pos : List Vec3) (i j : ℕ) : ℚ :=
  sqrtF (eps + sqDist (pos.getD i 0) (pos.getD j 0))

/-- Entry (i, j) of `dists_to_score` in `lddt`:
`(dmat_true < cutoff) * mask_i * mask_j * (1 - eye(n))`.
The mask tensor of shape [n, 1] is embedded as a flat vector of length n. -/
def dists_to_score (sqrtF : ℚ → ℚ) (cutoff eps : ℚ)
    (all_atom_positions : List Vec3) (all_atom_mask : List ℚ) (i j : ℕ) : ℚ :=
  bool01 (dmatEntry sqrtF eps all_atom_positions i j < cutoff)
    * all_atom_mask.getD i 0 * all_atom_mask.getD j 0
    * (1 - bool01 (i = j))

/-- Entry (i, j) of the per-pair `score` tensor of `lddt`:
the four distance-difference threshold indicators summed and scaled by 0.25. -/
def lddtPairScore (sqrtF : ℚ → ℚ) (eps : ℚ)
    (all_atom_pred_pos all_atom_positions : List Vec3) (i j : ℕ) : ℚ :=
  let dist_l1 := |dmatEntry sqrtF eps all_atom_positions i j
      - dmatEntry sqrtF eps all_atom_pred_pos i j|
  (bool01 (dist_l1 < 1/2) + bool01 (dist_l1 < 1)
    + bool01 (dist_l1 < 2) + bool01 (dist_l1 < 4)) * (1/4)

/-- Embedding of `loss_utils.lddt`.  Positions are flat point lists, the
mask (shape [n, 1] in the source, with a trailing broadcast axis) is a flat
vector whose length is `n = all_atom_mask.shape[-2]`.  With
`per_residue = true` the last axis is reduced and a length-n list is
returned; with `per_residue = false` both final axes are reduced and the
single global value is returned as a one-element list. -/
def lddt (sqrtF : ℚ → ℚ) (all_atom_pred_pos all_atom_positions : List Vec3)
    (all_atom_mask : List ℚ) (cutoff : ℚ := 15) (eps : ℚ := 1/10^10)
    (per_residue : Bool := true) : List ℚ :=
  let n := all_atom_mask.length
  let dts := dists_to_score sqrtF cutoff eps all_atom_positions all_atom_mask
  let sc := lddtPairScore sqrtF eps all_atom_pred_pos all_atom_positions
  if per_residue then
    (List.range n).map (fun i =>
      (1 / (eps + ∑ j ∈ Finset.range n, dts i j))
        * (eps + ∑ j ∈ Finset.range n, dts i j * sc i j))
  else
    [(1 / (eps + ∑ i ∈ Finset.range n, ∑ j ∈ Finset.range n, dts i j))
        * (eps + ∑ i ∈ Finset.range n, ∑ j ∈ Finset.range n, dts i j * sc i j)]

/-- Embedding of `loss_utils.lddt_all`: the [n0, n1, 3] coordinate tensors
and the [n0, n1] mask are reshaped to a single point cloud of
`nn = n0 * n1` atoms (mask kept with its trailing singleton axis) and
handed to `lddt` unchanged. -/
def lddt_all (sqrtF : ℚ → ℚ)
    (all_atom_pred_pos all_atom_positions : List (List Vec3))
    (all_atom_mask : List (List ℚ)) (cutoff : ℚ := 15) (eps : ℚ := 1/10^10)
    (per_residue : Bool := true) : List ℚ :=
  lddt sqrtF all_atom_pred_pos.flatten all_atom_positions.flatten
    all_atom_mask.flatten cutoff eps per_residue

/- ============ loss_utils.py : softmax_cross_entropy ============ -/

/-- Mathematical value of `torch.nn.functional.log_softmax(logits, dim=-1)`
on one last-axis row: `x_i - log (sum_j exp x_j)`.  The exponential and
logarithm of the host library are the parameters `expF` and `logF`; the
carrier is any field so that the witness can instantiate them with the real
functions. -/
def log_softmax {K : Type} [Field K] (expF logF : K → K) (logits : List K) :
    List K :=
  logits.map (fun x => x - logF ((logits.map expF).sum))

/-- Embedding of `loss_utils.softmax_cross_entropy` on one last-axis row:
`-sum(labels * log_softmax(logits), dim=-1)`. -/
def softmax_cross_entropy {K : Type} [Field K] (expF logF : K → K)
    (logits labels : List K) : K :=
  -(List.zipWith (fun l x => l * x) labels (log_softmax expF logF logits)).sum

/- ===================== loss_utils.py : compute_tm ===================== -/

/-- Embedding of `torch.linspace(lo, hi, steps)`. -/
def linspaceQ (lo hi : ℚ) (steps : ℕ) : List ℚ :=
  (List.range steps).map (fun k => lo + (hi - lo) * k / ((steps : ℚ) - 1))

/-- Embedding of `loss_utils._calculate_bin_centers`: shift each boundary by
half a step and append one extra trailing center for the open-ended bin. -/
def _calculate_bin_centers (boundaries : List ℚ) : List ℚ :=
  let step := boundaries.getD 1 0 - boundaries.getD 0 0
  let bin_centers := boundaries.map (fun b => b + step / 2)
  bin_centers ++ [bin_centers.getLastD 0 + step]

/-- Softmax of one last-axis row, with the host exponential as parameter. -/
def softmaxQ (expF : ℚ → ℚ) (xs : List ℚ) : List ℚ :=
  let e := xs.map expF
  e.map (fun v => v / e.sum)

/-- Value of `torch.max` on a vector (maximum entry; the source only applies
it to the nonempty vector `weighted`). -/
def torchMax (l : List ℚ) : ℚ := l.foldl max (l.headD 0)

/-- Index produced by `(...).nonzero()[0]` on a boolean vector: the position
of the first `true` (first nonzero) entry. -/
def nonzeroFirst (bs : List Bool) : ℕ := bs.findIdx (fun b => b)

/-- The tensor `predicted_tm_term` of `compute_tm` after the `pair_mask`
multiplication: entry (i, j) is `sum_k probs[i][j][k] * tm_per_bin[k]`,
times the inter-chain indicator when `interface` is set.  `expF` models the
exponential inside softmax and `cbrtF` the cube root `** (1.0 / 3)` used for
`d0`. -/
def tm_predicted_tm_term (expF cbrtF : ℚ → ℚ) (logits : List (List (List ℚ)))
    (max_bin : ℕ) (no_bins : ℕ) (asym_id : List ℚ) (interface : Bool) :
    List (List ℚ) :=
  let boundaries := linspaceQ 0 max_bin (no_bins - 1)
  let bin_centers := _calculate_bin_centers boundaries
  let n := logits.length
  let clipped_n : ℕ := max n 19
  let d0 := (124/100) * cbrtF ((clipped_n : ℚ) - 15) - 9/5
  let probs := logits.map (fun row => row.map (softmaxQ expF))
  let tm_per_bin := bin_centers.map (fun c => 1 / (1 + c ^ 2 / d0 ^ 2))
  let base := probs.map (fun row => row.map (fun p => dotQ p tm_per_bin))
  (List.zipWith (fun i brow => (List.zipWith (fun j v =>
      v * (if interface then
            bool01 (asym_id.getD i 0 ≠ asym_id.getD j 0) else 1))
    (List.range brow.length) brow)) (List.range base.length) base)

/-- The tensor `pair_residue_weights` of `compute_tm`:
`pair_mask * (residue_weights[None, :] * residue_weights[:, None])`. -/
def tm_pair_residue_weights (residue_weights asym_id : List ℚ)
    (interface : Bool) : List (List ℚ) :=
  (List.range residue_weights.length).map (fun i =>
    (List.range residue_weights.length).map (fun j =>
      (if interface then bool01 (asym_id.getD i 0 ≠ asym_id.getD j 0) else 1)
        * (residue_weights.getD j 0 * residue_weights.getD i 0)))

/-- The vector `per_alignment` of `compute_tm`: row sums of
`predicted_tm_term * normed_residue_mask`, where `normed_residue_mask` is
`pair_residue_weights / (eps + pair_residue_weights.sum())`. -/
def tm_per_alignment (expF cbrtF : ℚ → ℚ) (logits : List (List (List ℚ)))
    (residue_weights : List ℚ) (max_bin : ℕ) (no_bins : ℕ) (eps : ℚ)
    (asym_id : List ℚ) (interface : Bool) : List ℚ :=
  let ptm := tm_predicted_tm_term expF cbrtF logits max_bin no_bins
      asym_id interface
  let prw := tm_pair_residue_weights residue_weights asym_id interface
  let total := (prw.map List.sum).sum
  List.zipWith (fun trow nrow =>
      (List.zipWith (fun t w => t * (w / (eps + total))) trow nrow).sum)
    ptm prw

/-- The vector `weighted = per_alignment * residue_weights` of `compute_tm`. -/
def tm_weighted (expF cbrtF : ℚ → ℚ) (logits : List (List (List ℚ)))
    (residue_weights : List ℚ) (max_bin : ℕ) (no_bins : ℕ) (eps : ℚ)
    (asym_id : List ℚ) (interface : Bool) : List ℚ :=
  List.zipWith (fun p w => p * w)
    (tm_per_alignment expF cbrtF logits residue_weights max_bin no_bins eps
      asym_id interface)
    residue_weights

/-- Embedding of `loss_utils.compute_tm` for a [n, n, no_bins] logits tensor.
`residue_weights = none` models the `None` default (replaced by ones of
length `logits.shape[-2]`).  The returned value is
`per_alignment[(weighted == max(weighted)).nonzero()[0]]`. -/
def compute_tm (expF cbrtF : ℚ → ℚ) (logits : List (List (List ℚ)))
    (residue_weights : Option (List ℚ)) (max_bin : ℕ := 31)
    (no_bins : ℕ := 64) (eps : ℚ := 1/10^8) (asym_id : List ℚ := [])
    (interface : Bool := false) : ℚ :=
  let residue_weights :=
    residue_weights.getD (List.replicate logits.length 1)
  let per_alignment := tm_per_alignment expF cbrtF logits residue_weights
      max_bin no_bins eps asym_id interface
  let weighted := tm_weighted expF cbrtF logits residue_weights
      max_bin no_bins eps asym_id interface
  let argmax := nonzeroFirst (weighted.map (fun w => w == torchMax weighted))
  per_alignment.getD argmax 0

/-- Spec-side argmax: the lowest index at which the vector attains its
maximum, first tie winning. -/
def specArgmax (l : List ℚ) : ℕ :=
  l.findIdx (fun q => decide (∀ x ∈ l, x ≤ q))

/- ================== outer_product_mean.py ================== -/

/-- A learned affine projection `y = W x + bias` (weights as rows), the
model of `opencomplex.model.primitives.Linear` (declared outside the three
source files; its affine action is the interface the source relies on). -/
structure LinearLayer where
  weight : List (List ℚ)
  bias : List ℚ

/-- Application of a `LinearLayer` to one channel vector. -/
def LinearLayer.apply (L : LinearLayer) (x : List ℚ) : List ℚ :=
  List.zipWith (fun w b => dotQ w x + b) L.weight L.bias

/-- State of `OuterProductMean` (Algorithm 10).  `layer_norm` is kept as an
abstract per-channel-vector transform.  Modelled from the spec: the source
imports `LayerNorm` from `opencomplex.model.primitives`, which is not among
the three source files; the spec only requires a normalization transform
over the input channel dimension.  The fused `linear_12` branch of the
constructor copies the very weights of `linear_1`/`linear_2` into one
matrix and splits the output back in two, so the two projections are kept
as the state. -/
structure OuterProductMean where
  layer_norm : List ℚ → List ℚ
  linear_1 : LinearLayer
  linear_2 : LinearLayer
  linear_out : LinearLayer
  eps : ℚ

/-- The flattened outer-product row handed to `linear_out` inside `_opm`:
for one residue pair (i, j), entry `c * C + e` is
`sum_s a[i][s][c] * b[j][s][e]` — the einsum `...bac,...dae->...bdce`
followed by the reshape that merges the last two axes.  `a_i`, `b_j` are
the [N_seq, C] slices for the two residues. -/
def outerFlat (a_i b_j : List (List ℚ)) : List ℚ :=
  a_i.transpose.flatMap (fun colc => b_j.transpose.map (fun cole => dotQ colc cole))

/-- Embedding of `OuterProductMean._opm`: einsum, reshape, and the final
projection to the pair-channel width, for inputs of shape [N_res, N_seq, C]. -/
def OuterProductMean._opm (self : OuterProductMean)
    (a b : List (List (List ℚ))) : List (List (List ℚ)) :=
  a.map (fun a_i => b.map (fun b_j => self.linear_out.apply (outerFlat a_i b_j)))

/-- Modelled from the spec: `chunk_layer` (imported from
`opencomplex.utils.chunk_utils`, not among the three source files) slices
the leading batch axis of its input into consecutive blocks of
`chunk_size` rows, applies the layer to each block, and concatenates the
results along that axis. -/
def chunkSlices {α : Type} (chunk_size : ℕ) (l : List α) : List (List α) :=
  match l, chunk_size with
  | [], _ => []
  | _ :: _, 0 => []
  | x :: xs, cs + 1 =>
      (x :: xs).take (cs + 1) :: chunkSlices (cs + 1) ((x :: xs).drop (cs + 1))
termination_by l.length
decreasing_by
  simp only [List.length_drop, List.length_cons]
  omega

/-- Embedding of `OuterProductMean._chunk`: `_opm` evaluated on consecutive
`chunk_size` slices of `a` along the residue axis (with `b` fixed), the
slice outputs concatenated back along that axis.  The batch-axis reshape
gymnastics of the source are the identity for a single (batch-free)
[N_res, N_seq, C] input, which is the shape embedded here. -/
def OuterProductMean._chunk (self : OuterProductMean)
    (a b : List (List (List ℚ))) (chunk_size : ℕ) : List (List (List ℚ)) :=
  ((chunkSlices chunk_size a).map (fun a_prime => self._opm a_prime b)).flatten

/-- The mask normalizer of `forward`:
`norm = einsum("...abc,...adc->...bdc", mask, mask) + eps`,
whose (i, j) entry is `sum_s mask[s][i] * mask[s][j] + eps`. -/
def opmNorm (eps : ℚ) (mask : List (List ℚ)) : List (List ℚ) :=
  mask.transpose.map (fun mi => mask.transpose.map (fun mj => dotQ mi mj + eps))

/-- Out-of-place elementwise division `outer = outer / norm` of the
[N_res, N_res, C_z] tensor by the broadcast [N_res, N_res, 1] normalizer. -/
def opmDiv (outer : List (List (List ℚ))) (norm : List (List ℚ)) :
    List (List (List ℚ)) :=
  List.zipWith (fun orow nrow =>
    List.zipWith (fun ov nv => ov.map (fun x => x / nv)) orow nrow) outer norm

/-- In-place elementwise division `outer /= norm`: every cell of the freshly
computed `outer` buffer is overwritten with its quotient by the broadcast
normalizer entry; as a value, the buffer then holds exactly the elementwise
quotients. -/
def opmDivInPlace (outer : List (List (List ℚ))) (norm : List (List ℚ)) :
    List (List (List ℚ)) :=
  List.zipWith (fun orow nrow =>
    List.zipWith (fun ov nv => ov.map (fun x => x / nv)) orow nrow) outer norm

/-- Embedding of `OuterProductMean.forward` for a single (batch-free) MSA
embedding `m : [N_seq, N_res, C_m]` and mask `[N_seq, N_res]`: layer norm,
mask application, the two hidden projections, the seq/res transposes, the
chunked or unchunked outer-product contraction, and the mask normalization
chosen in-place or out-of-place by `inplace_safe`. -/
def OuterProductMean.forward (self : OuterProductMean)
    (m : List (List (List ℚ))) (mask : List (List ℚ))
    (chunk_size : Option ℕ := none) (inplace_safe : Bool := false) :
    List (List (List ℚ)) :=
  let ln := m.map (fun row => row.map self.layer_norm)
  let a := ln.map (fun row => row.map self.linear_1.apply)
  let b := ln.map (fun row => row.map self.linear_2.apply)
  let a := List.zipWith (fun arow mrow => List.zipWith
      (fun v mv => v.map (fun x => x * mv)) arow mrow) a mask
  let b := List.zipWith (fun brow mrow => List.zipWith
      (fun v mv => v.map (fun x => x * mv)) brow mrow) b mask
  let a := a.transpose
  let b := b.transpose
  let outer := match chunk_size with
    | some cs => self._chunk a b cs
    | none => self._opm a b
  let norm := opmNorm self.eps mask
  if inplace_safe then opmDivInPlace outer norm else opmDiv outer norm

/- ================== structure_module_xyz.py ================== -/

/-- Floating-point precision of a torch tensor. -/
inductive Dtype
  | float16
  | bfloat16
  | float32
  | float64
deriving DecidableEq

/-- Compute device of a torch tensor. -/
inductive Device
  | cpu
  | cuda (index : ℕ)
deriving DecidableEq

/-- Content tag of the residue-type constant tables.  Modelled from the
spec: the numeric payloads are the `padcat`-merged amino-acid and
nucleotide constants from `opencomplex.np.residue_constants` and
`opencomplex.np.nucleotide_constants`, which are not among the three
source files; only the identity of each table matters for the caching
discipline stated about `_init_residue_constants`. -/
inductive TableData
  | defaultFramesData
  | groupIdxData
  | atomMaskData
  | litPositionsData
deriving DecidableEq

/-- A constant table built by `torch.tensor(..., dtype=float_dtype,
device=device)`. -/
structure ConstTensor where
  data : TableData
  dtype : Dtype
  device : Device
deriving DecidableEq

/-- A constant index table built by `torch.tensor(..., device=device)`
without an explicit dtype (`group_idx`): only the device is chosen. -/
structure IntConstTensor where
  data : TableData
  device : Device
deriving DecidableEq

/-- The four lazily initialized constant-table slots of
`StructureModuleXYZ` (all set to `None` in the constructor). -/
structure ResidueConstants where
  default_frames : Option ConstTensor
  group_idx : Option IntConstTensor
  atom_mask : Option ConstTensor
  lit_positions : Option ConstTensor
deriving DecidableEq

/-- The constructor state of the four slots: `None` each. -/
def residueConstantsInit : ResidueConstants :=
  ⟨none, none, none, none⟩

/-- Embedding of `StructureModuleXYZ._init_residue_constants`: each slot is
built with the dtype/device of the present call only when it is still
`None`, and kept untouched otherwise. -/
def _init_residue_constants (self : ResidueConstants) (float_dtype : Dtype)
    (device : Device) : ResidueConstants where
  default_frames :=
    match self.default_frames with
    | none => some ⟨TableData.defaultFramesData, float_dtype, device⟩
    | some t => some t
  group_idx :=
    match self.group_idx with
    | none => some ⟨TableData.groupIdxData, device⟩
    | some t => some t
  atom_mask :=
    match self.atom_mask with
    | none => some ⟨TableData.atomMaskData, float_dtype, device⟩
    | some t => some t
  lit_positions :=
    match self.lit_positions with
    | none => some ⟨TableData.litPositionsData, float_dtype, device⟩
    | some t => some t

/-- The running coordinate tensor of `StructureModuleXYZ.forward`:
8 anchor-atom positions per residue. -/
abbrev XyzT (nRes : ℕ) := Fin nRes → Fin 8 → Vec3

/-- A 3 × 3 rotation-matrix entry grid. -/
abbrev Mat3 := Fin 3 → Fin 3 → ℚ

/-- A rigid frame: rotation matrix plus translation, the payload of the
`Rigid`/`Rotation` pair from `opencomplex.utils.rigid_utils` (outside the
three source files; the spec describes it as rotation + translation). -/
abbrev RigidF := Mat3 × Vec3

/-- The all-zero rigid frame (zero rotation matrix, zero translation):
the value `Rigid(Rotation(torch.zeros_like(...)), torch.zeros_like(...))`
of the `dummy_bb` placeholder and of the freshly allocated `bb_to_global`. -/
def zeroRigid : RigidF := (fun _ _ => 0, 0)

/-- Uniform scaling of the translation component of a frame:
`Rigid.scale_translation`.  Modelled from the spec: rigid-frame algebra is
an external collaborator; the spec names this operation as scaling of the
translation component only. -/
def scale_translation (f : RigidF) (factor : ℚ) : RigidF :=
  (f.1, (factor * f.2.1, factor * f.2.2.1, factor * f.2.2.2))

/-- The per-residue two-frame-slot backbone tensor `bb_to_global`. -/
abbrev BBT (nRes : ℕ) := Fin nRes → Fin 2 → RigidF

/-- Inputs and collaborator components of one `StructureModuleXYZ.forward`
call.  The collaborators (IPA, dropout, layer norms, transition, the
`refine_net` linear head, the angle resnet, `Rigid.from_3_points`, the two
`torsion_angles_to_frames` variants and the frame-to-atom mapping) are all
declared outside the three source files; modelled from the spec as opaque
interface functions, with `S` the single-representation type, `Z` the pair
representation, `M` the mask, `A` the angle tensors, `B` the butype tensor,
`F` the expanded frame sets, and `P` the dense atom positions. -/
structure SMEnv (S Z M A B F P : Type) (nRes : ℕ) where
  layer_norm_s : S → S
  linear_in : S → S
  ipa : S → Z → M → XyzT nRes → S
  ipa_dropout : S → S
  layer_norm_ipa : S → S
  transition : S → S
  refine_net : S → XyzT nRes
  angle_resnet : S → S → A × A
  from_3_points : Vec3 → Vec3 → Vec3 → RigidF
  torsion_to_frames : BBT nRes → A → B → List (Fin nRes) → List (Fin nRes) → F
  frames_to_positions : F → B → P
  frames_to_tensor_4x4 : F → F
  trans_scale_factor : ℚ
  single : S
  z : Z
  mask : M
  butype : B
  protein_pos : List (Fin nRes)
  rna_pos : List (Fin nRes)
  no_blocks : ℕ

variable {S Z M A B F P : Type} {nRes : ℕ}

/-- The value `s_initial` of `forward`: the layer-normed single
representation, saved before `linear_in`. -/
def SMEnv.sInitial (env : SMEnv S Z M A B F P nRes) : S :=
  env.layer_norm_s env.single

/-- The single representation entering the block loop:
`s = linear_in(layer_norm_s(single))`. -/
def SMEnv.sInit (env : SMEnv S Z M A B F P nRes) : S :=
  env.linear_in env.sInitial

/-- The single representation after the IPA / dropout / layer-norm /
transition steps of one block, starting from state `(s, xyz)`. -/
def SMEnv.updatedSingle [Add S] (env : SMEnv S Z M A B F P nRes)
    (st : S × XyzT nRes) : S :=
  env.transition (env.layer_norm_ipa (env.ipa_dropout
    (st.1 + env.ipa st.1 env.z env.mask st.2)))

/-- The additive coordinate update `xyz_update = refine_net(s)` (already in
its [N_res, 8, 3] view) predicted by one block from state `(s, xyz)`. -/
def SMEnv.blockUpdate [Add S] (env : SMEnv S Z M A B F P nRes)
    (st : S × XyzT nRes) : XyzT nRes :=
  env.refine_net (env.updatedSingle st)

/-- One loop iteration on the running `(s, xyz)` state:
the single-representation update followed by `xyz = xyz + xyz_update`. -/
def SMEnv.stepState [Add S] (env : SMEnv S Z M A B F P nRes)
    (st : S × XyzT nRes) : S × XyzT nRes :=
  let s := env.updatedSingle st
  (s, st.2 + env.refine_net s)

/-- The `(s, xyz)` state after `k` blocks.  The coordinate tensor starts
from the black-hole initialization `torch.zeros(s.shape[:-1] + (8, 3))`. -/
def SMEnv.stateAt [Add S] (env : SMEnv S Z M A B F P nRes) (k : ℕ) :
    S × XyzT nRes :=
  (env.stepState)^[k] (env.sInit, 0)

/-- The running coordinate tensor after `k` blocks. -/
def SMEnv.xyzAt [Add S] (env : SMEnv S Z M A B F P nRes) (k : ℕ) :
    XyzT nRes :=
  (env.stateAt k).2

/-- The protein backbone frames of one block: the 3-point frame from the
C / CA / N anchors in slot 0, the all-zero `dummy_bb` placeholder in
slot 1 — `Rigid.cat([bb_protein_to_global.unsqueeze(-1),
dummy_bb.unsqueeze(-1)], dim=-1)` at one gathered residue. -/
def SMEnv.proteinFrames (env : SMEnv S Z M A B F P nRes) (xyz : XyzT nRes)
    (r : Fin nRes) : Fin 2 → RigidF :=
  fun slot =>
    if slot = 0 then env.from_3_points (xyz r 0) (xyz r 1) (xyz r 2)
    else zeroRigid

/-- The RNA backbone frames of one block: two 3-point frames from the
negated O4p anchor with the C4p/C3p and C1p/C2p anchor pairs. -/
def SMEnv.rnaFrames (env : SMEnv S Z M A B F P nRes) (xyz : XyzT nRes)
    (r : Fin nRes) : Fin 2 → RigidF :=
  fun slot =>
    if slot = 0 then env.from_3_points (-(xyz r 3)) (xyz r 4) (xyz r 5)
    else env.from_3_points (-(xyz r 3)) (xyz r 6) (xyz r 7)

/-- The unified two-frame-slot backbone tensor of one block, built from the
post-update coordinates: allocated all-zero, the protein frames scattered
at `protein_pos`, the RNA frames scattered at `rna_pos` (in that order),
then every translation scaled by `trans_scale_factor`.  The fancy-index
assignments write, at each listed residue, the frame pair computed from
that residue's gathered anchors. -/
def SMEnv.buildBB (env : SMEnv S Z M A B F P nRes) (xyz : XyzT nRes) :
    BBT nRes :=
  let bb0 : BBT nRes := fun _ _ => zeroRigid
  let bb1 : BBT nRes := fun r slot =>
    if r ∈ env.protein_pos then env.proteinFrames xyz r slot else bb0 r slot
  let bb2 : BBT nRes := fun r slot =>
    if r ∈ env.rna_pos then env.rnaFrames xyz r slot else bb1 r slot
  fun r slot => scale_translation (bb2 r slot) env.trans_scale_factor

/-- The (post-scaling) `bb_to_global` tensor appended to the `frames`
history in block `k` (0-indexed): it is built from the coordinates after
that block's additive update. -/
def SMEnv.bbAt [Add S] (env : SMEnv S Z M A B F P nRes) (k : ℕ) :
    BBT nRes :=
  env.buildBB (env.xyzAt (k + 1))

/-- The per-block prediction dictionary `preds`. -/
structure BlockPreds (A F P : Type) where
  sidechain_frames : F
  unnormalized_angles : A
  angles : A
  positions : P

/-- The `preds` dictionary of block `k`: torsion angles from the block's
single representation and `s_initial`, the expanded frames from the
backbone tensor, and the dense atom positions. -/
def SMEnv.predsAt [Add S] (env : SMEnv S Z M A B F P nRes) (k : ℕ) :
    BlockPreds A F P :=
  let s := (env.stateAt (k + 1)).1
  let angles := env.angle_resnet s env.sInitial
  let all_frames := env.torsion_to_frames (env.bbAt k) angles.2 env.butype
      env.protein_pos env.rna_pos
  { sidechain_frames := env.frames_to_tensor_4x4 all_frames
    unnormalized_angles := angles.1
    angles := angles.2
    positions := env.frames_to_positions all_frames env.butype }

/-- The stacked output of `StructureModuleXYZ.forward`: the per-block
prediction dictionaries, the final single representation, and the
per-block backbone-frame history. -/
structure SMOutputs (S A F P : Type) (nRes : ℕ) where
  outputs : List (BlockPreds A F P)
  single : S
  frames : List (BBT nRes)

/-- Embedding of `StructureModuleXYZ.forward` (the offload bookkeeping of
the pair tensor moves data between devices without changing any value and
is not represented). -/
def SMEnv.forward [Add S] (env : SMEnv S Z M A B F P nRes) :
    SMOutputs S A F P nRes where
  outputs := (List.range env.no_blocks).map env.predsAt
  single := (env.stateAt env.no_blocks).1
  frames := (List.range env.no_blocks).map env.bbAt

/- ============== Concrete instances used by witnesses ============== -/

/-- A minimal concrete `OuterProductMean` state (one channel everywhere,
identity layer norm) used to instantiate the chunking theorem. -/
def opmTiny : OuterProductMean where
  layer_norm := fun v => v
  linear_1 := ⟨[[1]], [0]⟩
  linear_2 := ⟨[[1]], [0]⟩
  linear_out := ⟨[[1]], [0]⟩
  eps := 1/10^3

/-- A minimal concrete structure-module environment: one residue, rational
single representation, unit collaborator types, one block, every residue an
amino-acid position. -/
def smTiny : SMEnv ℚ Unit Unit Unit Unit Unit Unit 1 where
  layer_norm_s := fun s => s
  linear_in := fun s => s
  ipa := fun s _ _ _ => s + 1
  ipa_dropout := fun s => s
  layer_norm_ipa := fun s => s
  transition := fun s => s
  refine_net := fun s => fun _ _ => (s, s, s)
  angle_resnet := fun _ _ => ((), ())
  from_3_points := fun p _ _ => (fun _ _ => 1, p)
  torsion_to_frames := fun _ _ _ _ _ => ()
  frames_to_positions := fun _ _ => ()
  frames_to_tensor_4x4 := fun f => f
  trans_scale_factor := 10
  single := 0
  z := ()
  mask := ()
  butype := ()
  protein_pos := [0]
  rna_pos := []
  no_blocks := 1

/- ===================== Helper lemmas ===================== -/

theorem bool01_nonneg (p : Prop) [Decidable p] : 0 ≤ bool01 p := by
  unfold bool01
  split <;> norm_num

theorem bool01_le_one (p : Prop) [Decidable p] : bool01 p ≤ 1 := by
  unfold bool01
  split <;> norm_num

theorem mask01_getD_nonneg (mask : List ℚ) (hmask : ∀ x ∈ mask, x = 0 ∨ x = 1)
    (i : ℕ) : 0 ≤ mask.getD i 0 := by
  rcases lt_or_ge i mask.length with h | h
  · rw [List.getD_eq_getElem mask 0 h]
    rcases hmask _ (List.getElem_mem h) with h0 | h1
    · rw [h0]
    · rw [h1]; norm_num
  · rw [List.getD_eq_default mask 0 h]

theorem dists_to_score_nonneg (sqrtF : ℚ → ℚ) (cutoff eps : ℚ)
    (pos : List Vec3) (mask : List ℚ) (hmask : ∀ x ∈ mask, x = 0 ∨ x = 1)
    (i j : ℕ) : 0 ≤ dists_to_score sqrtF cutoff eps pos mask i j := by
  unfold dists_to_score
  have h1 := bool01_nonneg (dmatEntry sqrtF eps pos i j < cutoff)
  have h2 := mask01_getD_nonneg mask hmask i
  have h3 := mask01_getD_nonneg mask hmask j
  have h4 : (0:ℚ) ≤ 1 - bool01 (i = j) := by
    have := bool01_le_one (i = j)
    linarith
  positivity

theorem lddtPairScore_nonneg (sqrtF : ℚ → ℚ) (eps : ℚ)
    (pred pos : List Vec3) (i j : ℕ) :
    0 ≤ lddtPairScore sqrtF eps pred pos i j := by
  unfold lddtPairScore
  have h1 := bool01_nonneg
    (|dmatEntry sqrtF eps pos i j - dmatEntry sqrtF eps pred i j| < 1/2)
  have h2 := bool01_nonneg
    (|dmatEntry sqrtF eps pos i j - dmatEntry sqrtF eps pred i j| < 1)
  have h3 := bool01_nonneg
    (|dmatEntry sqrtF eps pos i j - dmatEntry sqrtF eps pred i j| < 2)
  have h4 := bool01_nonneg
    (|dmatEntry sqrtF eps pos i j - dmatEntry sqrtF eps pred i j| < 4)
  simp only
  linarith

theorem lddtPairScore_le_one (sqrtF : ℚ → ℚ) (eps : ℚ)
    (pred pos : List Vec3) (i j : ℕ) :
    lddtPairScore sqrtF eps pred pos i j ≤ 1 := by
  unfold lddtPairScore
  have h1 := bool01_le_one
    (|dmatEntry sqrtF eps pos i j - dmatEntry sqrtF eps pred i j| < 1/2)
  have h2 := bool01_le_one
    (|dmatEntry sqrtF eps pos i j - dmatEntry sqrtF eps pred i j| < 1)
  have h3 := bool01_le_one
    (|dmatEntry sqrtF eps pos i j - dmatEntry sqrtF eps pred i j| < 2)
  have h4 := bool01_le_one
    (|dmatEntry sqrtF eps pos i j - dmatEntry sqrtF eps pred i j| < 4)
  simp only
  linarith

theorem ratio_unit (eps S Sp : ℚ) (heps : 0 < eps) (hS : 0 ≤ S)
    (hSp : 0 ≤ Sp) (hle : Sp ≤ S) :
    0 ≤ 1 / (eps + S) * (eps + Sp) ∧ 1 / (eps + S) * (eps + Sp) ≤ 1 := by
  have hden : 0 < eps + S := by linarith
  have hnum : 0 < eps + Sp := by linarith
  constructor
  · positivity
  · rw [one_div, inv_mul_le_iff₀ hden]
    linarith

theorem chunkSlices_flatten {α : Type} (cs : ℕ) (hcs : 0 < cs) :
    ∀ l : List α, (chunkSlices cs l).flatten = l := by
  obtain ⟨c, rfl⟩ : ∃ c, cs = c + 1 := ⟨cs - 1, by omega⟩
  have main : ∀ (n : ℕ) (l : List α), l.length ≤ n →
      (chunkSlices (c + 1) l).flatten = l := by
    intro n
    induction n with
    | zero =>
      intro l hl
      rw [List.eq_nil_of_length_eq_zero (Nat.le_zero.mp hl)]
      simp [chunkSlices]
    | succ n ih =>
      intro l hl
      rcases l with _ | ⟨x, xs⟩
      · simp [chunkSlices]
      · have hdrop : ((x :: xs).drop (c + 1)).length ≤ n := by
          simp only [List.length_drop, List.length_cons]
          simp only [List.length_cons] at hl
          omega
        rw [chunkSlices, List.flatten_cons, ih _ hdrop, List.take_append_drop]
  intro l
  exact main l.length l le_rfl

theorem opm_chunk_eq_opm (self : OuterProductMean)
    (a b : List (List (List ℚ))) (cs : ℕ) (hcs : 0 < cs) :
    self._chunk a b cs = self._opm a b := by
  unfold OuterProductMean._chunk OuterProductMean._opm
  rw [show (fun a_prime : List (List (List ℚ)) =>
      a_prime.map (fun a_i => b.map
        (fun b_j => self.linear_out.apply (outerFlat a_i b_j))))
    = List.map (fun a_i => b.map
        (fun b_j => self.linear_out.apply (outerFlat a_i b_j))) from rfl]
  rw [← List.map_flatten, chunkSlices_flatten cs hcs a]

/-- C1: for every MSA embedding, mask and positive chunk size, the chunked
path of `OuterProductMean.forward` (through `_chunk`) returns exactly the
same pair-embedding update as the unchunked path (through `_opm`), in exact
arithmetic. -/
theorem opm_forward_chunked_eq_unchunked (self : OuterProductMean)
    (m : List (List (List ℚ))) (mask : List (List ℚ)) (chunk_size : ℕ)
    (inplace_safe : Bool) (hcs : 0 < chunk_size) :
    self.forward m mask (some chunk_size) inplace_safe
      = self.forward m mask none inplace_safe := by
  simp only [OuterProductMean.forward]
  rw [opm_chunk_eq_opm self _ _ chunk_size hcs]

/-- Witness for C1 at a concrete one-channel input with chunk size 1. -/
theorem opm_forward_chunked_eq_unchunked_witness :
    0 < 1 ∧ opmTiny.forward [[[1]]] [[1]] (some 1) false
      = opmTiny.forward [[[1]]] [[1]] none false :=
  ⟨Nat.one_pos,
    opm_forward_chunked_eq_unchunked opmTiny [[[1]]] [[1]] 1 false Nat.one_pos⟩

/-- C10: `inplace_safe = true` (in-place division of the outer-product
tensor by the mask normalizer) and `inplace_safe = false` (out-of-place
division) return the same `forward` value for every input: the flag only
selects whether the intermediate buffer is mutated. -/
theorem opm_forward_inplace_eq_outofplace (self : OuterProductMean)
    (m : List (List (List ℚ))) (mask : List (List ℚ))
    (chunk_size : Option ℕ) :
    self.forward m mask chunk_size true = self.forward m mask chunk_size false := rfl

/-- C2 counterexample: after the tables are built for (float32, cpu), a
later call with the different pair (float64, cuda 0) leaves every table
unchanged — nothing is rebuilt when precision and device change. -/
theorem init_residue_constants_no_rebuild :
    _init_residue_constants (_init_residue_constants residueConstantsInit
        Dtype.float32 Device.cpu) Dtype.float64 (Device.cuda 0)
      = _init_residue_constants residueConstantsInit Dtype.float32 Device.cpu
    ∧ (_init_residue_constants residueConstantsInit Dtype.float32
        Device.cpu).default_frames
      = some ⟨TableData.defaultFramesData, Dtype.float32, Device.cpu⟩ := by
  constructor <;> rfl

/-- C2 amended: the residue-type constant tables are built lazily by the
first `_init_residue_constants` call, with that call's precision and device,
and are never mutated or rebuilt afterwards — any later call, with the same
or a different (precision, device) pair, leaves the state unchanged. -/
theorem init_residue_constants_build_once (d1 d2 : Dtype)
    (dev1 dev2 : Device) :
    _init_residue_constants residueConstantsInit d1 dev1
      = ⟨some ⟨TableData.defaultFramesData, d1, dev1⟩,
          some ⟨TableData.groupIdxData, dev1⟩,
          some ⟨TableData.atomMaskData, d1, dev1⟩,
          some ⟨TableData.litPositionsData, d1, dev1⟩⟩
    ∧ _init_residue_constants (_init_residue_constants residueConstantsInit
          d1 dev1) d2 dev2
      = _init_residue_constants residueConstantsInit d1 dev1 := by
  constructor <;> rfl

/-- C7: with predicted positions equal to the true positions, `lddt`
returns per-residue scores that are all exactly 1: every scoring pair has
zero distance difference, so the masked numerator equals the masked
denominator. -/
theorem lddt_self_eq_one (sqrtF : ℚ → ℚ) (pos : List Vec3) (mask : List ℚ)
    (cutoff eps : ℚ) (heps : 0 < eps) (hmask : ∀ x ∈ mask, x = 0 ∨ x = 1) :
    lddt sqrtF pos pos mask cutoff eps true = List.replicate mask.length 1 := by
  simp only [lddt, if_true]
  rw [List.eq_replicate_iff]
  refine ⟨by simp, ?_⟩
  intro b hb
  simp only [List.mem_map, List.mem_range] at hb
  obtain ⟨i, hi, rfl⟩ := hb
  have hsc : ∀ j, lddtPairScore sqrtF eps pos pos i j = 1 := by
    intro j
    unfold lddtPairScore
    simp only [sub_self, abs_zero]
    norm_num [bool01]
  have hrw : (∑ j ∈ Finset.range mask.length,
      dists_to_score sqrtF cutoff eps pos mask i j
        * lddtPairScore sqrtF eps pos pos i j)
      = ∑ j ∈ Finset.range mask.length,
        dists_to_score sqrtF cutoff eps pos mask i j :=
    Finset.sum_congr rfl (fun j _ => by rw [hsc j, mul_one])
  rw [hrw]
  have hS : 0 ≤ ∑ j ∈ Finset.range mask.length,
      dists_to_score sqrtF cutoff eps pos mask i j :=
    Finset.sum_nonneg (fun j _ => dists_to_score_nonneg _ _ _ _ _ hmask i j)
  exact one_div_mul_cancel (by linarith)

/-- Witness for C7 at a concrete two-atom input. -/
theorem lddt_self_eq_one_witness :
    (0:ℚ) < 1 ∧ (∀ x ∈ [(1:ℚ), 1], x = 0 ∨ x = 1) ∧
    lddt (fun q => q) [((0:ℚ), (0:ℚ), (0:ℚ)), ((1:ℚ), (0:ℚ), (0:ℚ))]
        [((0:ℚ), (0:ℚ), (0:ℚ)), ((1:ℚ), (0:ℚ), (0:ℚ))] [(1:ℚ), 1] 15 1 true
      = List.replicate [(1:ℚ), 1].length 1 :=
  ⟨by norm_num,
   by intro x hx; fin_cases hx <;> norm_num,
   lddt_self_eq_one (fun q => q) _ _ 15 1 (by norm_num)
     (by intro x hx; fin_cases hx <;> norm_num)⟩

/-- C6: every entry of the tensor returned by `lddt` lies in [0, 1], in the
per-residue mode (last axis reduced) and in the global mode (last two axes
reduced), for any model of the host square root, any finite inputs and any
0/1 mask. -/
theorem lddt_scores_in_unit_interval (sqrtF : ℚ → ℚ)
    (pred pos : List Vec3) (mask : List ℚ) (cutoff eps : ℚ)
    (per_residue : Bool) (heps : 0 < eps)
    (hmask : ∀ x ∈ mask, x = 0 ∨ x = 1) :
    ∀ x ∈ lddt sqrtF pred pos mask cutoff eps per_residue,
      0 ≤ x ∧ x ≤ 1 := by
  have hdn : ∀ i j, 0 ≤ dists_to_score sqrtF cutoff eps pos mask i j :=
    fun i j => dists_to_score_nonneg _ _ _ _ _ hmask i j
  have hub : ∀ i j,
      dists_to_score sqrtF cutoff eps pos mask i j
          * lddtPairScore sqrtF eps pred pos i j
        ≤ dists_to_score sqrtF cutoff eps pos mask i j :=
    fun i j => mul_le_of_le_one_right (hdn i j)
      (lddtPairScore_le_one sqrtF eps pred pos i j)
  have hlb : ∀ i j, 0 ≤ dists_to_score sqrtF cutoff eps pos mask i j
      * lddtPairScore sqrtF eps pred pos i j :=
    fun i j => mul_nonneg (hdn i j) (lddtPairScore_nonneg sqrtF eps pred pos i j)
  intro x hx
  cases per_residue with
  | false =>
    simp only [lddt, Bool.false_eq_true, if_false, List.mem_singleton] at hx
    subst hx
    exact ratio_unit eps _ _ heps
      (Finset.sum_nonneg (fun i _ => Finset.sum_nonneg (fun j _ => hdn i j)))
      (Finset.sum_nonneg (fun i _ => Finset.sum_nonneg (fun j _ => hlb i j)))
      (Finset.sum_le_sum (fun i _ => Finset.sum_le_sum (fun j _ => hub i j)))
  | true =>
    simp only [lddt, if_true, List.mem_map, List.mem_range] at hx
    obtain ⟨i, hi, rfl⟩ := hx
    exact ratio_unit eps _ _ heps
      (Finset.sum_nonneg (fun j _ => hdn i j))
      (Finset.sum_nonneg (fun j _ => hlb i j))
      (Finset.sum_le_sum (fun j _ => hub i j))

/-- Witness for C6 at a concrete two-atom input with a genuinely masked
atom, in per-residue mode. -/
theorem lddt_scores_in_unit_interval_witness :
    (0:ℚ) < 1 ∧ (∀ x ∈ [(1:ℚ), 0], x = 0 ∨ x = 1) ∧
    (∀ x ∈ lddt (fun q => q) [((0:ℚ), (0:ℚ), (0:ℚ)), ((3:ℚ), (0:ℚ), (0:ℚ))]
        [((0:ℚ), (0:ℚ), (0:ℚ)), ((1:ℚ), (0:ℚ), (0:ℚ))] [(1:ℚ), 0] 15 1 true,
      0 ≤ x ∧ x ≤ 1) :=
  ⟨by norm_num,
   by intro x hx; fin_cases hx <;> norm_num,
   lddt_scores_in_unit_interval (fun q => q) _ _ _ 15 1 true (by norm_num)
     (by intro x hx; fin_cases hx <;> norm_num)⟩

/-- C8: `softmax_cross_entropy` is invariant to adding one constant to
every logit of the last axis, for labels summing to 1 and any exponential /
logarithm pair satisfying the usual laws (which the real functions do, as
the witness shows): the constant cancels inside `log_softmax`. -/
theorem softmax_cross_entropy_shift_invariant {K : Type}
    [LinearOrderedField K] (expF logF : K → K)
    (hexp : ∀ a b : K, expF (a + b) = expF a * expF b)
    (hpos : ∀ a : K, 0 < expF a)
    (hkey : ∀ a s : K, 0 < s → logF (expF a * s) = a + logF s)
    (logits labels : List K) (c : K) (hsum : labels.sum = 1) :
    softmax_cross_entropy expF logF (logits.map (fun x => x + c)) labels
      = softmax_cross_entropy expF logF logits labels := by
  rcases logits with _ | ⟨x, xs⟩
  · simp [softmax_cross_entropy, log_softmax]
  · have hS : 0 < ((x :: xs).map expF).sum := by
      refine List.sum_pos _ ?_ (by simp)
      intro y hy
      simp only [List.mem_map] at hy
      obtain ⟨z, -, rfl⟩ := hy
      exact hpos z
    have h1 : (((x :: xs).map (fun t => t + c)).map expF).sum
        = expF c * ((x :: xs).map expF).sum := by
      rw [List.map_map]
      have he : (expF ∘ fun t => t + c) = fun t => expF t * expF c := by
        funext t
        simp only [Function.comp_apply]
        rw [← hexp]
      rw [he, List.sum_map_mul_right]
      ring
    have h2 : logF ((((x :: xs).map (fun t => t + c)).map expF).sum)
        = c + logF (((x :: xs).map expF).sum) := by
      rw [h1, hkey c _ hS]
    simp only [softmax_cross_entropy, log_softmax]
    simp only [h2]
    simp only [List.map_map]
    have h3 : ((fun t => t - (c + logF (((x :: xs).map expF).sum)))
          ∘ fun t => t + c)
        = fun t => t - logF (((x :: xs).map expF).sum) := by
      funext t
      simp only [Function.comp_apply]
      ring
    rw [h3]

/-- Witness for C8, instantiated with the real exponential and logarithm
(which satisfy all three hypothesized laws) at concrete logits, labels
and shift. -/
theorem softmax_cross_entropy_shift_invariant_witness :
    ([(1:ℝ), 0].sum = 1) ∧
    softmax_cross_entropy Real.exp Real.log
        ([(2:ℝ), 3].map (fun x => x + 5)) [(1:ℝ), 0]
      = softmax_cross_entropy Real.exp Real.log [(2:ℝ), 3] [(1:ℝ), 0] :=
  ⟨by norm_num,
   softmax_cross_entropy_shift_invariant Real.exp Real.log
     (fun a b => Real.exp_add a b)
     Real.exp_pos
     (fun a s hs => by rw [Real.log_mul (Real.exp_pos a).ne' hs.ne', Real.log_exp])
     [(2:ℝ), 3] [(1:ℝ), 0] 5 (by norm_num)⟩

/-- C4: the coordinate tensor starts as the all-zero tensor; after the
first refinement block it equals the zero tensor plus exactly the first
block's `refine_net` update; and across blocks it evolves only by adding
each block's predicted update, never being reset. -/
theorem structure_module_xyz_additive_updates [Add S]
    (env : SMEnv S Z M A B F P nRes) :
    env.xyzAt 0 = 0
    ∧ env.xyzAt 1 = (0 : XyzT nRes) + env.blockUpdate (env.sInit, 0)
    ∧ ∀ k : ℕ, env.xyzAt (k + 1)
        = env.xyzAt k + env.blockUpdate (env.stateAt k) := by
  have hstep : ∀ k : ℕ, env.xyzAt (k + 1)
      = env.xyzAt k + env.blockUpdate (env.stateAt k) := by
    intro k
    unfold SMEnv.xyzAt SMEnv.stateAt
    rw [Function.iterate_succ_apply']
    rfl
  refine ⟨rfl, ?_, hstep⟩
  have h1 := hstep 0
  have h0 : env.xyzAt 0 = 0 := rfl
  rw [h0] at h1
  exact h1

/-- C5: when the input consists entirely of amino-acid residues
(`rna_pos` empty, `protein_pos` covering every residue), the second frame
slot of the two-frame-slot backbone tensor of every block is exactly the
zero frame (zero rotation matrix and zero translation), including after
the translation scaling by `trans_scale_factor`. -/
theorem structure_module_xyz_dummy_slot_zero [Add S]
    (env : SMEnv S Z M A B F P nRes)
    (hrna : env.rna_pos = [])
    (hcov : ∀ r : Fin nRes, r ∈ env.protein_pos) :
    ∀ bb ∈ env.forward.frames, ∀ r : Fin nRes, bb r 1 = zeroRigid := by
  intro bb hbb r
  simp only [SMEnv.forward, List.mem_map, List.mem_range] at hbb
  obtain ⟨k, -, rfl⟩ := hbb
  show env.buildBB (env.xyzAt (k + 1)) r 1 = zeroRigid
  unfold SMEnv.buildBB
  simp only [hrna, List.not_mem_nil, if_false]
  have hslot : (if r ∈ env.protein_pos
      then env.proteinFrames (env.xyzAt (k + 1)) r 1
      else zeroRigid) = zeroRigid := by
    split
    · unfold SMEnv.proteinFrames
      norm_num
    · rfl
  rw [hslot]
  unfold scale_translation zeroRigid
  norm_num

/-- Witness for C5: the one-residue all-protein environment. -/
theorem structure_module_xyz_dummy_slot_zero_witness :
    smTiny.rna_pos = [] ∧ ((0 : Fin 1) ∈ smTiny.protein_pos) ∧
    smTiny.bbAt 0 0 1 = zeroRigid :=
  ⟨rfl, by decide,
   structure_module_xyz_dummy_slot_zero smTiny rfl (by decide)
     (smTiny.bbAt 0)
     (by simp [SMEnv.forward, smTiny, List.range_succ]) 0⟩

theorem foldl_max_mem (xs : List ℚ) : ∀ a : ℚ, xs.foldl max a ∈ a :: xs := by
  induction xs with
  | nil => intro a; simp
  | cons y ys ih =>
    intro a
    simp only [List.foldl_cons]
    rcases List.mem_cons.mp (ih (max a y)) with h | h
    · rcases max_choice a y with hm | hm
      · rw [h, hm]
        exact List.mem_cons_self _ _
      · rw [h, hm]
        exact List.mem_cons_of_mem _ (List.mem_cons_self _ _)
    · exact List.mem_cons_of_mem _ (List.mem_cons_of_mem _ h)

theorem le_foldl_max (xs : List ℚ) :
    ∀ a : ℚ, a ≤ xs.foldl max a ∧ ∀ x ∈ xs, x ≤ xs.foldl max a := by
  induction xs with
  | nil =>
    intro a
    exact ⟨le_refl a, by simp⟩
  | cons y ys ih =>
    intro a
    simp only [List.foldl_cons]
    obtain ⟨h1, h2⟩ := ih (max a y)
    refine ⟨le_trans (le_max_left a y) h1, ?_⟩
    intro x hx
    rcases List.mem_cons.mp hx with rfl | hx
    · exact le_trans (le_max_right a x) h1
    · exact h2 x hx

theorem torchMax_mem (l : List ℚ) (hl : l ≠ []) : torchMax l ∈ l := by
  rcases l with _ | ⟨x, xs⟩
  · exact absurd rfl hl
  · unfold torchMax
    simp only [List.headD_cons]
    rw [List.foldl_cons, max_self]
    exact List.mem_cons.mp (foldl_max_mem xs x) |>.elim
      (fun h => by rw [h]; exact List.mem_cons_self _ _)
      (fun h => List.mem_cons_of_mem _ h)

theorem le_torchMax (l : List ℚ) (x : ℚ) (hx : x ∈ l) : x ≤ torchMax l := by
  rcases l with _ | ⟨y, ys⟩
  · simp at hx
  · unfold torchMax
    simp only [List.headD_cons]
    rw [List.foldl_cons, max_self]
    rcases List.mem_cons.mp hx with rfl | hx
    · exact (le_foldl_max ys x).1
    · exact (le_foldl_max ys y).2 x hx

theorem findIdx_congr_on {α : Type} (l : List α) (p q : α → Bool)
    (h : ∀ x ∈ l, p x = q x) : l.findIdx p = l.findIdx q := by
  induction l with
  | nil => rfl
  | cons x xs ih =>
    rw [List.findIdx_cons, List.findIdx_cons, h x (List.mem_cons_self _ _),
      ih (fun y hy => h y (List.mem_cons_of_mem _ hy))]

theorem findIdx_of_map {α β : Type} (f : α → β) (l : List α) (p : β → Bool) :
    (l.map f).findIdx p = l.findIdx (fun x => p (f x)) := by
  induction l with
  | nil => rfl
  | cons x xs ih =>
    rw [List.map_cons, List.findIdx_cons, List.findIdx_cons, ih]

theorem nonzeroFirst_eq_specArgmax (l : List ℚ) (hl : l ≠ []) :
    nonzeroFirst (l.map (fun w => w == torchMax l)) = specArgmax l := by
  unfold nonzeroFirst specArgmax
  rw [findIdx_of_map]
  apply findIdx_congr_on
  intro x hx
  rw [Bool.eq_iff_iff]
  simp only [beq_iff_eq, decide_eq_true_eq]
  constructor
  · intro hxe y hy
    rw [hxe]
    exact le_torchMax l y hy
  · intro hall
    exact le_antisymm (le_torchMax l x hx) (hall _ (torchMax_mem l hl))

theorem tm_predicted_tm_term_length (expF cbrtF : ℚ → ℚ)
    (logits : List (List (List ℚ))) (max_bin no_bins : ℕ)
    (asym_id : List ℚ) (interface : Bool) :
    (tm_predicted_tm_term expF cbrtF logits max_bin no_bins asym_id
      interface).length = logits.length := by
  unfold tm_predicted_tm_term
  simp [List.length_zipWith]

theorem tm_weighted_length (expF cbrtF : ℚ → ℚ)
    (logits : List (List (List ℚ))) (residue_weights : List ℚ)
    (max_bin no_bins : ℕ) (eps : ℚ) (asym_id : List ℚ) (interface : Bool) :
    (tm_weighted expF cbrtF logits residue_weights max_bin no_bins eps
        asym_id interface).length
      = min logits.length residue_weights.length := by
  unfold tm_weighted tm_per_alignment tm_pair_residue_weights
  simp [List.length_zipWith, tm_predicted_tm_term_length]

/-- C3: `compute_tm` returns `per_alignment[i*]`, where `per_alignment` is
the residue-weighted masked average of the per-pair expected TM
contribution and `i*` is the lowest index at which
`per_alignment * residue_weights` attains its maximum, first tie winning. -/
theorem compute_tm_eq_per_alignment_at_first_argmax (expF cbrtF : ℚ → ℚ)
    (logits : List (List (List ℚ))) (residue_weights : List ℚ)
    (max_bin no_bins : ℕ) (eps : ℚ) (asym_id : List ℚ) (interface : Bool)
    (hne : logits ≠ []) (hlen : residue_weights.length = logits.length) :
    compute_tm expF cbrtF logits (some residue_weights) max_bin no_bins eps
        asym_id interface
      = (tm_per_alignment expF cbrtF logits residue_weights max_bin no_bins
            eps asym_id interface).getD
          (specArgmax (tm_weighted expF cbrtF logits residue_weights max_bin
            no_bins eps asym_id interface)) 0 := by
  have hwne : tm_weighted expF cbrtF logits residue_weights max_bin no_bins
      eps asym_id interface ≠ [] := by
    have := tm_weighted_length expF cbrtF logits residue_weights max_bin
      no_bins eps asym_id interface
    have hpos : 0 < logits.length := List.length_pos.mpr hne
    apply List.ne_nil_of_length_pos
    omega
  simp only [compute_tm, Option.getD_some]
  rw [nonzeroFirst_eq_specArgmax _ hwne]

/-- Witness for C3 at a one-residue, one-bin input. -/
theorem compute_tm_eq_per_alignment_at_first_argmax_witness :
    ([[[(0:ℚ)]]] ≠ ([] : List (List (List ℚ))))
    ∧ [(1:ℚ)].length = [[[(0:ℚ)]]].length
    ∧ compute_tm (fun _ => 1) (fun q => q) [[[(0:ℚ)]]] (some [1]) 31 64
          (1/10^8) [] false
        = (tm_per_alignment (fun _ => 1) (fun q => q) [[[(0:ℚ)]]] [1] 31 64
              (1/10^8) [] false).getD
            (specArgmax (tm_weighted (fun _ => 1) (fun q => q) [[[(0:ℚ)]]]
              [1] 31 64 (1/10^8) [] false)) 0 :=
  ⟨by simp, rfl,
   compute_tm_eq_per_alignment_at_first_argmax (fun _ => 1) (fun q => q)
     [[[(0:ℚ)]]] [1] 31 64 (1/10^8) [] false (by simp) rfl⟩

/-- C9 counterexample: `lddt_all` is not an unmasked computation — it
forwards the caller's mask.  With one masked-out atom, its result differs
from the all-pairs `lddt` of the flattened cloud under an all-ones mask. -/
theorem lddt_all_not_unmasked :
    lddt_all (fun q => q)
        [[((0:ℚ), (0:ℚ), (0:ℚ))], [((0:ℚ), (0:ℚ), (0:ℚ))]]
        [[((0:ℚ), (0:ℚ), (0:ℚ))], [((1:ℚ), (0:ℚ), (0:ℚ))]]
        [[(1:ℚ)], [(0:ℚ)]] 15 1 true
      ≠ lddt (fun q => q)
        [((0:ℚ), (0:ℚ), (0:ℚ)), ((0:ℚ), (0:ℚ), (0:ℚ))]
        [((0:ℚ), (0:ℚ), (0:ℚ)), ((1:ℚ), (0:ℚ), (0:ℚ))]
        [(1:ℚ), 1] 15 1 true := by
  norm_num [lddt_all, lddt, dists_to_score, lddtPairScore, dmatEntry, sqDist,
    bool01, Finset.sum_range_succ, Finset.sum_range_zero, List.range_succ]

/-- C9 amended: `lddt_all` flattens its multi-chain predicted and true
coordinate tensors into a single 2-D point cloud (first two axes merged)
before delegating to `lddt`, and treats all atoms across all chains as one
all-pairs computation under the caller-provided flattened mask (no
chain-based masking): the chain grouping itself is irrelevant, only the
flattened point cloud matters. -/
theorem lddt_all_flattens_and_delegates (sqrtF : ℚ → ℚ)
    (p t : List (List Vec3)) (m : List (List ℚ)) (cutoff eps : ℚ)
    (pr : Bool) :
    lddt_all sqrtF p t m cutoff eps pr
      = lddt sqrtF p.flatten t.flatten m.flatten cutoff eps pr
    ∧ ∀ (p2 t2 : List (List Vec3)) (m2 : List (List ℚ)),
        p2.flatten = p.flatten → t2.flatten = t.flatten →
        m2.flatten = m.flatten →
        lddt_all sqrtF p2 t2 m2 cutoff eps pr
          = lddt_all sqrtF p t m cutoff eps pr := by
  refine ⟨rfl, ?_⟩
  intro p2 t2 m2 hp ht hm
  unfold lddt_all
  rw [hp, ht, hm]

/-- Witness for C9: regrouping two atoms from one chain into two chains
leaves the flattening, and hence the result, unchanged. -/
theorem lddt_all_flattens_and_delegates_witness :
    (([[((0:ℚ), (0:ℚ), (0:ℚ))], [((2:ℚ), (0:ℚ), (0:ℚ))]] :
        List (List Vec3)).flatten
      = ([[((0:ℚ), (0:ℚ), (0:ℚ)), ((2:ℚ), (0:ℚ), (0:ℚ))]] :
        List (List Vec3)).flatten)
    ∧ (([[(1:ℚ)], [(1:ℚ)]] : List (List ℚ)).flatten
      = ([[(1:ℚ), (1:ℚ)]] : List (List ℚ)).flatten)
    ∧ lddt_all (fun q => q)
        [[((0:ℚ), (0:ℚ), (0:ℚ))], [((2:ℚ), (0:ℚ), (0:ℚ))]]
        [[((0:ℚ), (0:ℚ), (0:ℚ))], [((2:ℚ), (0:ℚ), (0:ℚ))]]
        [[(1:ℚ)], [(1:ℚ)]] 15 1 true
      = lddt_all (fun q => q)
        [[((0:ℚ), (0:ℚ), (0:ℚ)), ((2:ℚ), (0:ℚ), (0:ℚ))]]
        [[((0:ℚ), (0:ℚ), (0:ℚ)), ((2:ℚ), (0:ℚ), (0:ℚ))]]
        [[(1:ℚ), (1:ℚ)]] 15 1 true :=
  ⟨rfl, rfl,
   (lddt_all_flattens_and_delegates (fun q => q)
      [[((0:ℚ), (0:ℚ), (0:ℚ)), ((2:ℚ), (0:ℚ), (0:ℚ))]]
      [[((0:ℚ), (0:ℚ), (0:ℚ)), ((2:ℚ), (0:ℚ), (0:ℚ))]]
      [[(1:ℚ), (1:ℚ)]] 15 1 true).2
     [[((0:ℚ), (0:ℚ), (0:ℚ))], [((2:ℚ), (0:ℚ), (0:ℚ))]]
     [[((0:ℚ), (0:ℚ), (0:ℚ))], [((2:ℚ), (0:ℚ), (0:ℚ))]]
     [[(1:ℚ)], [(1:ℚ)]] rfl rfl rfl⟩
